import Mathlib

/-!
# Verification of the sports-proxy pipeline

A shallow embedding, in Lean 4, of the core pipeline of the sports-proxy
worker: intent extraction, two-phase resolve/enrich tool processing, the
two-tier cache manager, the non-streaming Responses-API assembly and the
streaming event emitter.  Each definition mirrors one JavaScript function of
the source (`ResponsesAPIOrchestrator` in `src/mcp/orchestrator.js` and
`CacheManager` in `src/cache/manager.js`); machine-level conventions used
throughout:

* JS objects holding string-scalar arguments are association lists
  `List (String × String)`; object key lookup is `alookup` (first match).
* JS truthiness on optional strings: `undefined` and `""` are falsy.
* Times are naturals counted in milliseconds (`Date.now()`); TTLs are
  naturals counted in seconds, exactly as in the source.  The float
  comparison `(now - ts) / 1000 < ttlSeconds` agrees with natural-number
  division because `ttl` is an integer.
* External effects (the MCP backend, KV/R2 writes, stream writes) are
  oracle parameters; `Except` models `throw`/`catch`.
-/

namespace SportsProxy

/-- Boolean prefix test on character lists (`BEq` on `Char`). -/
def listPrefixB : List Char → List Char → Bool
  | [], _ => true
  | _ :: _, [] => false
  | a :: as, b :: bs => a == b && listPrefixB as bs

/-- Boolean infix test on character lists. -/
def listInfixB : List Char → List Char → Bool
  | pat, [] => pat.isEmpty
  | pat, c :: rest => listPrefixB pat (c :: rest) || listInfixB pat rest

/-- JS `text.includes(pat)`: substring containment. -/
def jsIncludes (text pat : String) : Bool :=
  listInfixB pat.toList text.toList

/-- Lexicographic comparison of character lists by code point, the order
`Array.prototype.sort()` applies to object keys (they agree on ASCII;
JS compares UTF-16 code units). -/
def lexLe : List Char → List Char → Bool
  | [], _ => true
  | _ :: _, [] => false
  | a :: as, b :: bs => if a < b then true else if b < a then false else lexLe as bs

/-- `a <= b` for strings in the key-sorting order. -/
def strLe (a b : String) : Bool := lexLe a.toList b.toList

/-- Tool-call arguments: a JS object of string scalars, in insertion order. -/
abbrev Args := List (String × String)

/-- JS object property read `args[k]` as an `Option`. -/
def alookup (k : String) : Args → Option String
  | [] => none
  | (k', v) :: rest => if k' = k then some v else alookup k rest

/-- JS truthiness of a property read: `undefined` and `""` are falsy. -/
def jsFalsyOpt : Option String → Bool
  | none => true
  | some s => s == ""

/-- JS property assignment `args[k] = v`: replace in place when the key is
present, append otherwise. -/
def setKey (args : Args) (k v : String) : Args :=
  match args with
  | [] => [(k, v)]
  | (k', v') :: rest => if k' = k then (k, v) :: rest else (k', v') :: setKey rest k v

/-- A declared tool (`ToolDefinition`); only `name` is consulted by the
extraction and dispatch code. -/
structure ToolDef where
  name : String
  description : String := ""
deriving DecidableEq

/-- A tool call produced by extraction. -/
structure ToolCall where
  name : String
  arguments : Args
deriving DecidableEq

/-- The parsed JSON payload a tool execution returns.  The `id` field is the
one inspected by the resolver bookkeeping (`result && result.id`, with `0`
falsy); the rest of the object is opaque and carried as `payload`. -/
structure ToolData where
  id : Option Nat := none
  payload : String := ""
deriving DecidableEq

/-- JS truthiness of `result.id` for a number-valued id. -/
def jsHasId (d : ToolData) : Bool :=
  match d.id with
  | some n => n != 0
  | none => false

/-- One entry of the list `_processToolCalls` returns. -/
structure ExecutionResult where
  tool : String
  success : Bool
  result : Option ToolData := none
  error : Option String := none
  enriched : Option Bool := none
deriving DecidableEq

/-! ## CacheManager (`src/cache/manager.js`)

The hot tier (Cloudflare KV) and cold tier (R2) are association lists from
cache key to stored entry, each wrapped in `Option`: `none` models an
unconfigured binding (`this.kv` / `this.r2` undefined).  Native KV
expiration (`expirationTtl`) coincides with the `_isValid` check the code
performs on read, so expiry is modelled by `_isValid` alone.  Writes may be
rejected by the backend; a `Bool` oracle per write says whether the `put`
succeeds, and `Except` carries the state across a `throw`. -/

/-- TTL configuration of a `CacheManager` instance (seconds). -/
structure CacheConfig where
  hotTTL : Nat := 10
  coldTTL : Nat := 300
deriving DecidableEq

/-- What `_setHot` stores in KV: `{payload, timestamp}`. -/
structure HotEntry where
  payload : String
  timestamp : Nat
deriving DecidableEq

/-- What `set` stores in R2: `{payload, timestamp, tool, args}`. -/
structure ColdEntry where
  payload : String
  timestamp : Nat
  tool : String
  args : Args
deriving DecidableEq

/-- The two tier stores. -/
structure CacheState where
  kv : Option (List (String × HotEntry))
  r2 : Option (List (String × ColdEntry))
deriving DecidableEq

/-- Key lookup in a tier store (most recent write first). -/
def tierGet {α : Type} (key : String) : List (String × α) → Option α
  | [] => none
  | (k, v) :: rest => if k = key then some v else tierGet key rest

/-- Key write to a tier store; prepending realises overwrite semantics
because `tierGet` returns the most recent binding. -/
def tierPut {α : Type} (store : List (String × α)) (key : String) (v : α) :
    List (String × α) :=
  (key, v) :: store

/-- `_generateKey`: sort the argument keys, join `key:value` pairs with `|`,
prefix with the namespace and tool name. -/
def _generateKey (tool : String) (args : Args) : String :=
  let keys := List.insertionSort (fun x y : String => strLe x y = true) (args.map Prod.fst)
  let sortedPairs := String.intercalate "|"
    (keys.map fun key => key ++ ":" ++ (alookup key args).getD "")
  "sports:" ++ tool ++ ":" ++ sortedPairs

/-- `_isValid`: `(Date.now() - cachedData.timestamp) / 1000 < ttlSeconds`. -/
def _isValid (nowMs ts ttlSeconds : Nat) : Bool :=
  (nowMs - ts) / 1000 < ttlSeconds

/-- `_setHot`: no-op when KV is unbound, otherwise a KV `put` stamped with
the current time; `ok = false` models a rejected `put` (a throw carrying
the unchanged state). -/
def _setHot (ok : Bool) (s : CacheState) (nowMs : Nat) (key payload : String) :
    Except CacheState CacheState :=
  match s.kv with
  | none => .ok s
  | some store =>
      if ok then .ok { s with kv := some (tierPut store key ⟨payload, nowMs⟩) }
      else .error s

/-- `_setCold`: no-op when R2 is unbound, otherwise an R2 `put`. -/
def _setCold (ok : Bool) (s : CacheState) (key : String) (ce : ColdEntry) :
    Except CacheState CacheState :=
  match s.r2 with
  | none => .ok s
  | some store =>
      if ok then .ok { s with r2 := some (tierPut store key ce) }
      else .error s

/-- What `get` hands back on a hit. -/
structure GetResult where
  data : String
  source : String
  age : Nat
deriving DecidableEq

/-- `get`: hot tier first (hit while within `hotTTL`), then cold tier (hit
while within `coldTTL`, promoting the payload into the hot tier with a
fresh timestamp).  `promoOk` is the oracle for the promotion write; its
rejection is swallowed by the surrounding `try`, which returns `null`. -/
def cacheGet (c : CacheConfig) (promoOk : Bool) (s : CacheState) (nowMs : Nat)
    (tool : String) (args : Args) : CacheState × Option GetResult :=
  let key := _generateKey tool args
  let hotHit :=
    match s.kv with
    | none => none
    | some store =>
        match tierGet key store with
        | some e => if _isValid nowMs e.timestamp c.hotTTL then some e else none
        | none => none
  match hotHit with
  | some e => (s, some ⟨e.payload, "hot", nowMs - e.timestamp⟩)
  | none =>
      match s.r2 with
      | none => (s, none)
      | some store =>
          match tierGet key store with
          | none => (s, none)
          | some ce =>
              if _isValid nowMs ce.timestamp c.coldTTL then
                match _setHot promoOk s nowMs key ce.payload with
                | .ok s' => (s', some ⟨ce.payload, "cold", nowMs - ce.timestamp⟩)
                | .error s' => (s', none)
              else (s, none)

/-- `set`: write to the hot tier then the cold tier inside one `try`; any
rejected write is caught and turns the return value into `false` (the state
keeps whatever writes happened before the throw). -/
def cacheSet (okHot okCold : Bool) (s : CacheState) (nowMs : Nat)
    (tool : String) (args : Args) (data : String) : CacheState × Bool :=
  let key := _generateKey tool args
  match _setHot okHot s nowMs key data with
  | .error s' => (s', false)
  | .ok s₁ =>
      match _setCold okCold s₁ key ⟨data, nowMs, tool, args⟩ with
      | .error s' => (s', false)
      | .ok s₂ => (s₂, true)

/-! ## Orchestrator input model

`input` is either a raw string or a structured message list; anything else
is JSON-stringified by the source, which the model leaves out of the
domain.  `JSON.stringify` is modelled for strings free of control
characters (quote and backslash are escaped); `toLowerCase`/`toLower`
agree on the ASCII texts the pattern tables contain. -/

/-- One message of a structured input. -/
structure Msg where
  role : String
  content : String
deriving DecidableEq

/-- The orchestrator's `input` value. -/
inductive JsInput where
  | str (s : String)
  | arr (msgs : List Msg)
deriving DecidableEq

/-- A device memory (`{key, value}`); absent fields are modelled as `""`,
which is exactly what the code's truthiness test rejects. -/
structure Memory where
  key : String := ""
  value : String := ""
deriving DecidableEq

/-- `JSON.stringify` escaping of one character. -/
def jsonEscapeChar (c : Char) : String :=
  if c = '"' then "\\\"" else if c = '\\' then "\\\\" else String.singleton c

/-- `JSON.stringify` escaping of a string body. -/
def jsonEscape (s : String) : String :=
  s.toList.foldl (fun acc c => acc ++ jsonEscapeChar c) ""

/-- `JSON.stringify` of one message object. -/
def jsonStringifyMsg (m : Msg) : String :=
  "\x7b\"role\":\"" ++ jsonEscape m.role ++ "\",\"content\":\"" ++
    jsonEscape m.content ++ "\"\x7d"

/-- `JSON.stringify` of a message array. -/
def jsonStringifyMsgs (l : List Msg) : String :=
  "[" ++ String.intercalate "," (l.map jsonStringifyMsg) ++ "]"

/-- `toLowerCase`, character by character (they agree with JS on ASCII). -/
def toLowerStr (s : String) : String :=
  String.mk (s.toList.map Char.toLower)

/-- `typeof input === 'string' ? input.toLowerCase() :
JSON.stringify(input).toLowerCase()`. -/
def flattenLower : JsInput → String
  | .str s => toLowerStr s
  | .arr l => toLowerStr (jsonStringifyMsgs l)

/-! ## IntentExtractor (`_extractToolCalls`) -/

/-- Entity pattern table: teams. -/
def entityTeams : List String :=
  ["yankees", "red sox", "dodgers", "giants", "mets", "cubs", "braves", "astros"]

/-- Entity pattern table: players. -/
def entityPlayers : List String :=
  ["judge", "ohtani", "trout", "betts", "acuna", "freeman"]

/-- Intent keyphrases for `team_info`. -/
def intentTeamInfo : List String :=
  ["about", "info", "information", "details", "tell me about"]

/-- Intent keyphrases for `roster`. -/
def intentRoster : List String :=
  ["roster", "players", "team members", "lineup"]

/-- Intent keyphrases for `stats`. -/
def intentStats : List String :=
  ["stats", "statistics", "performance", "numbers"]

/-- Intent keyphrases for `schedule` (declared by the source, never used by
the emission chain). -/
def intentSchedule : List String :=
  ["schedule", "games", "when", "playing"]

/-- Intent keyphrases for `standings` (declared by the source, never used by
the emission chain). -/
def intentStandings : List String :=
  ["standings", "rankings", "position", "place"]

/-- `tools.some(t => t.name === n)`. -/
def hasTool (tools : List ToolDef) (n : String) : Bool :=
  tools.any fun t => t.name == n

/-- The resolver calls emitted for matched entities: at most one per entity
type, each using the first matching pattern in declaration order. -/
def resolverCallsOf (inputText : String) (tools : List ToolDef) : List ToolCall :=
  (if (entityTeams.any fun t => jsIncludes inputText t) && hasTool tools "resolve_team" then
    match entityTeams.find? (fun t => jsIncludes inputText t) with
    | some teamName => [ToolCall.mk "resolve_team" [("name", teamName)]]
    | none => []
  else []) ++
  (if (entityPlayers.any fun p => jsIncludes inputText p) && hasTool tools "resolve_player" then
    match entityPlayers.find? (fun p => jsIncludes inputText p) with
    | some playerName => [ToolCall.mk "resolve_player" [("name", playerName)]]
    | none => []
  else [])

/-- The single data-tool call chosen by the `roster` / `team_info` /
`stats` else-if chain, with empty arguments. -/
def dataCallsOf (inputText : String) (tools : List ToolDef) : List ToolCall :=
  if intentRoster.any (fun p => jsIncludes inputText p) &&
      hasTool tools "get_team_roster" then
    [ToolCall.mk "get_team_roster" []]
  else if intentTeamInfo.any (fun p => jsIncludes inputText p) &&
      hasTool tools "get_team_info" then
    [ToolCall.mk "get_team_info" []]
  else if intentStats.any (fun p => jsIncludes inputText p) &&
      hasTool tools "get_player_stats" && (entityPlayers.any fun p => jsIncludes inputText p) then
    [ToolCall.mk "get_player_stats" []]
  else []

/-- `_extractToolCalls`: resolver calls for matched entities, then at most
one data-tool call — all of it inside the `hasTeamEntity ||
hasPlayerEntity` guard. -/
def _extractToolCalls (input : JsInput) (tools : List ToolDef) : List ToolCall :=
  if tools.isEmpty then []
  else
    let inputText := flattenLower input
    if (entityTeams.any fun t => jsIncludes inputText t)
        || (entityPlayers.any fun p => jsIncludes inputText p) then
      resolverCallsOf inputText tools ++ dataCallsOf inputText tools
    else []

/-! ## ResolutionEnrichmentPipeline (`_processToolCalls`)

The tool executor (`this._executeSingleTool`) performs external I/O, so
the pipeline is parametrised by an executor oracle
`exec : σ → name → args → σ × Except error data` threading an arbitrary
effect state `σ` (the cache and the backend). -/

/-- A tool name is a resolver. -/
def isResolverName (n : String) : Bool :=
  n == "resolve_team" || n == "resolve_player"

/-- The static per-tool required-entity table. -/
def toolEntityMap (n : String) : List String :=
  if n == "get_team_info" then ["team"]
  else if n == "get_team_roster" then ["team"]
  else if n == "get_player_stats" then ["player"]
  else if n == "get_schedule" then ["team"]
  else if n == "get_standings" then []
  else if n == "get_live_game" then []
  else []

/-- `resolvedEntity.id.toString()`; reached only under the truthiness
guard, where the id is a nonzero number. -/
def idString (d : ToolData) : String :=
  match d.id with
  | some n => toString n
  | none => ""

/-- `_enrichToolArguments`: start from the call's own arguments and, for
each required entity type with a resolved entity carrying a truthy id,
inject the id string under `teamId`/`playerId` when that argument is falsy
(absent or empty). -/
def _enrichToolArguments (toolCall : ToolCall)
    (resolverResults : List (String × ToolData)) : Args :=
  (toolEntityMap toolCall.name).foldl (fun enrichedArgs entityType =>
    match tierGet entityType resolverResults with
    | none => enrichedArgs
    | some resolvedEntity =>
        if jsHasId resolvedEntity then
          if entityType == "team" then
            if jsFalsyOpt (alookup "teamId" enrichedArgs) then
              setKey enrichedArgs "teamId" (idString resolvedEntity)
            else enrichedArgs
          else if entityType == "player" then
            if jsFalsyOpt (alookup "playerId" enrichedArgs) then
              setKey enrichedArgs "playerId" (idString resolvedEntity)
            else enrichedArgs
          else enrichedArgs
        else enrichedArgs) toolCall.arguments

/-- The (tool, entity type, argument key) triples realised by the
enrichment branches: the injection targets of `_enrichToolArguments`. -/
def requiredKeyTable : List (String × String × String) :=
  [("get_team_info", "team", "teamId"),
   ("get_team_roster", "team", "teamId"),
   ("get_player_stats", "player", "playerId"),
   ("get_schedule", "team", "teamId")]

/-- First pass of `_processToolCalls`: execute every resolver call, record
its result, and on success with a truthy id store the entity under its
type (`Map.set`; prepending realises last-set-wins under `tierGet`). -/
def phase1 {σ : Type} (exec : σ → String → Args → σ × Except String ToolData) :
    σ → List (String × ToolData) → List ToolCall →
      σ × List (String × ToolData) × List ExecutionResult
  | s, m, [] => (s, m, [])
  | s, m, tc :: rest =>
      if isResolverName tc.name then
        match exec s tc.name tc.arguments with
        | (s', .ok d) =>
            let entityType := if tc.name == "resolve_team" then "team" else "player"
            let m' := if jsHasId d then (entityType, d) :: m else m
            let (s'', m'', res) := phase1 exec s' m' rest
            (s'', m'', { tool := tc.name, success := true, result := some d } :: res)
        | (s', .error e) =>
            let (s'', m'', res) := phase1 exec s' m rest
            (s'', m'', { tool := tc.name, success := false, error := some e } :: res)
      else phase1 exec s m rest

/-- Second pass of `_processToolCalls`: execute every non-resolver call with
enriched arguments.  The `enriched` flag compares object references
(`enrichedArgs !== toolCall.arguments`); the spread always allocates a new
object, so it is constantly `true`. -/
def phase2 {σ : Type} (exec : σ → String → Args → σ × Except String ToolData) :
    σ → List (String × ToolData) → List ToolCall → σ × List ExecutionResult
  | s, _, [] => (s, [])
  | s, m, tc :: rest =>
      if isResolverName tc.name then phase2 exec s m rest
      else
        match exec s tc.name (_enrichToolArguments tc m) with
        | (s', .ok d) =>
            let (s'', res) := phase2 exec s' m rest
            (s'', { tool := tc.name, success := true, result := some d,
                    enriched := some true } :: res)
        | (s', .error e) =>
            let (s'', res) := phase2 exec s' m rest
            (s'', { tool := tc.name, success := false, error := some e } :: res)

/-- `_processToolCalls`: resolver pass, then enrich-and-execute pass; every
per-call failure is caught into its `ExecutionResult`. -/
def _processToolCalls {σ : Type}
    (exec : σ → String → Args → σ × Except String ToolData) (s : σ)
    (toolCalls : List ToolCall) : List ExecutionResult :=
  let (s₁, m, res₁) := phase1 exec s [] toolCalls
  let (_, res₂) := phase2 exec s₁ m toolCalls
  res₁ ++ res₂

/-! ## ToolExecutor (`_executeSingleTool`, concrete cache) -/

/-- `_executeSingleTool` over the concrete cache: serve a cache hit, else
consult the backend (`this.callTool`, whose failures surface as a thrown
message), write through both tiers and return the payload.  The source
computes `getSmartTTL` here but never passes it to `set`. -/
def _executeSingleTool (c : CacheConfig) (backend : String → Args → Except String String)
    (promoOk okHot okCold : Bool) (s : CacheState) (nowMs : Nat)
    (toolName : String) (args : Args) : CacheState × Except String String :=
  match cacheGet c promoOk s nowMs toolName args with
  | (s', some cached) => (s', .ok cached.data)
  | (s', none) =>
      match backend toolName args with
      | .ok data =>
          let (s'', _) := cacheSet okHot okCold s' nowMs toolName args data
          (s'', .ok data)
      | .error msg => (s', .error msg)

/-! ## Non-streaming response assembly (`processResponsesAPIRequest`) -/

/-- JS truthiness of `previous_response_id`. -/
def jsTruthyStrOpt : Option String → Bool
  | none => false
  | some s => s != ""

/-- The sports system prompt injected ahead of user memories. -/
def sportsSystemPrompt : String :=
  "You are a helpful MLB sports data assistant. You have access to real-time MLB data through specialized tools. Always use the available tools when users ask about current stats, scores, or team information."

/-- `_convertMemoriesToSystemMessages`: empty unless `memories` is an array;
otherwise the system prompt followed by one message per memory whose key
and value are both truthy. -/
def _convertMemoriesToSystemMessages : Option (List Memory) → List Msg
  | none => []
  | some memories =>
      ⟨"system", sportsSystemPrompt⟩ ::
        memories.filterMap fun m =>
          if m.key != "" && m.value != "" then
            some ⟨"system", "USER_MEMORY: " ++ m.key ++ " = " ++ m.value⟩
          else none

/-- `_processInputWithMemories`: continuations pass through; new chats
prepend the memory messages to the array form of the input. -/
def _processInputWithMemories (input : JsInput) (memories : Option (List Memory))
    (previous_response_id : Option String) : JsInput :=
  if jsTruthyStrOpt previous_response_id then input
  else
    let memoryMessages := _convertMemoriesToSystemMessages memories
    let inputArray :=
      match input with
      | .str s => [⟨"user", s⟩]
      | .arr l => l
    .arr (memoryMessages ++ inputArray)

/-- JS `.length` of the value handed to `_estimateTokens`: character count
for strings, element count for arrays. -/
def jsLen : JsInput → Nat
  | .str s => s.length
  | .arr l => l.length

/-- JS truthiness of that value (`""` falsy, arrays truthy). -/
def jsTruthyInput : JsInput → Bool
  | .str s => s != ""
  | .arr _ => true

/-- `_estimateTokens`: `Math.ceil(text.length / 4)`, `0` on a falsy
argument. -/
def _estimateTokens (v : JsInput) : Nat :=
  if jsTruthyInput v then (jsLen v + 3) / 4 else 0

/-- The greeting branch of `_generateContextualResponse`. -/
def greetingResponse : String :=
  "Hello! I\x27m here and ready to help you with MLB sports data. I can provide team information, player stats, schedules, standings, and live game data. What would you like to know?"

/-- The help branch of `_generateContextualResponse`. -/
def helpResponse : String :=
  "I can help you with MLB sports data using these tools:\n\n• get_team_info - Team details and information\n• get_player_stats - Player statistics\n• get_team_roster - Team roster information\n• get_schedule - Game schedules\n• get_standings - League standings\n• get_live_game - Live game data\n\nWhat specific information are you looking for?"

/-- The default contextual response; the same literal is streamed when no
tool calls were extracted. -/
def noToolsMessage : String :=
  "I can help you with MLB sports data. Available tools: get_team_info, get_player_stats, get_team_roster, get_schedule, get_standings, get_live_game. What would you like to know?"

/-- `_generateContextualResponse`: keyed off the last user message of the
processed input. -/
def _generateContextualResponse (processedInput : JsInput) : String :=
  let lastUserMessage :=
    match processedInput with
    | .arr l => (((l.filter (fun (m : Msg) => m.role == "user")).getLast?).map Msg.content).getD ""
    | .str s => s
  let lc := toLowerStr lastUserMessage
  if jsIncludes lc "hello" || jsIncludes lc "hi" || jsIncludes lc "are you there" then
    greetingResponse
  else if jsIncludes lc "help" then helpResponse
  else noToolsMessage

/-- `JSON.stringify(result, null, 2)` of an opaque tool payload is modelled
by its `payload` blob. -/
def serializeToolData (d : ToolData) : String := d.payload

/-- `JSON.stringify` of a possibly-undefined result slot. -/
def serializeOptData : Option ToolData → String
  | some d => serializeToolData d
  | none => "undefined"

/-- `_formatToolResults`. -/
def _formatToolResults (toolResults : List ExecutionResult) : String :=
  if toolResults.isEmpty then "No tools were executed."
  else
    (toolResults.foldl (fun output r =>
      if r.success then
        output ++ r.tool ++ ": " ++ serializeOptData r.result ++ "\n\n"
      else
        output ++ r.tool ++ " failed: " ++ (r.error.getD "undefined") ++ "\n\n") "").trim

/-- Usage block of a non-streaming response. -/
structure Usage where
  input_tokens : Nat
  output_tokens : Nat
  total_tokens : Nat
deriving DecidableEq

/-- The claim-relevant projection of a non-streaming response: the output
text and the usage block (`id`/`created_at` are clock/randomness driven and
carry no contract). -/
structure ResponseModel where
  output_text : String
  usage : Usage
deriving DecidableEq

/-- `processResponsesAPIRequest`, non-streaming path. -/
def processResponsesAPIRequest {σ : Type}
    (exec : σ → String → Args → σ × Except String ToolData) (s : σ)
    (input : JsInput) (tools : List ToolDef) (memories : Option (List Memory))
    (previous_response_id : Option String) : ResponseModel :=
  let processedInput := _processInputWithMemories input memories previous_response_id
  let toolCalls := _extractToolCalls processedInput tools
  if toolCalls.isEmpty then
    { output_text := _generateContextualResponse processedInput,
      usage := { input_tokens := _estimateTokens processedInput,
                 output_tokens := 50,
                 total_tokens := _estimateTokens processedInput + 50 } }
  else
    let toolResults := _processToolCalls exec s toolCalls
    let text := _formatToolResults toolResults
    { output_text := text,
      usage := { input_tokens := _estimateTokens processedInput,
                 output_tokens := _estimateTokens (.str text),
                 total_tokens := _estimateTokens processedInput + _estimateTokens (.str text) } }

/-! ## EventStreamer (`_processStreamingRequest`)

The output channel is a trace of named events.  `wOk n` says whether the
`n`-th `writer.write` resolves; a rejected write throws into the `catch`,
which emits a single `error` event (itself through the writer), and the
`finally` closes the channel.  The pacing delay's own failure is swallowed
by the inner `try`/`catch` and does not influence the trace. -/

/-- An event written to the stream, plus the terminal channel close. -/
inductive SEvent where
  | created
  | in_progress
  | tool_call (name : String) (args : Args)
  | tool_result (name : String) (payload : String)
  | delta (fragment : String)
  | completed
  | error (msg : String)
  | close
deriving DecidableEq

/-- The event kinds the tool loop and the delta emitters may write:
neither terminal nor channel-control events. -/
def midEvent : SEvent → Bool
  | .tool_call _ _ => true
  | .tool_result _ _ => true
  | .delta _ => true
  | _ => false

/-- The channel: events written so far and write attempts made so far. -/
structure WriterState where
  trace : List SEvent
  attempts : Nat
deriving DecidableEq

/-- One `writer.write`: appends the event when the oracle accepts attempt
number `attempts`, otherwise writes nothing and reports the rejection. -/
def emitW (wOk : Nat → Bool) (e : SEvent) (s : WriterState) : WriterState × Bool :=
  if wOk s.attempts then ({ trace := s.trace ++ [e], attempts := s.attempts + 1 }, true)
  else ({ s with attempts := s.attempts + 1 }, false)

/-- The message a rejected write throws with. -/
def writeFailMsg : String := "stream write rejected"

/-- Word-by-word delta emission; stops at the first rejected write. -/
def emitDeltas (wOk : Nat → Bool) : List String → WriterState → WriterState × Bool
  | [], s => (s, true)
  | w :: ws, s =>
      let (s₁, ok) := emitW wOk (.delta (w ++ " ")) s
      if ok then emitDeltas wOk ws s₁ else (s₁, false)

/-- `_formatSingleToolResult`. -/
def _formatSingleToolResult (toolName : String) (d : ToolData) : String :=
  toolName ++ " result: " ++ serializeToolData d

/-- The per-tool streaming loop: `tool_call`, execute, `tool_result`, one
delta per whitespace-delimited word.  Returns the thrown message if any
step failed. -/
def runStreamTools {σ : Type} (wOk : Nat → Bool)
    (exec : σ → String → Args → σ × Except String ToolData) :
    List ToolCall → σ → WriterState → σ × WriterState × Option String
  | [], s, w => (s, w, none)
  | tc :: rest, s, w =>
      let (w₁, ok₁) := emitW wOk (.tool_call tc.name tc.arguments) w
      if ok₁ then
        match exec s tc.name tc.arguments with
        | (s', .error m) => (s', w₁, some m)
        | (s', .ok d) =>
            let (w₂, ok₂) := emitW wOk (.tool_result tc.name (serializeToolData d)) w₁
            if ok₂ then
              match emitDeltas wOk ((_formatSingleToolResult tc.name d).splitOn " ") w₂ with
              | (w₃, true) => runStreamTools wOk exec rest s' w₃
              | (w₃, false) => (s', w₃, some writeFailMsg)
            else (s', w₂, some writeFailMsg)
      else (s, w₁, some writeFailMsg)

/-- The final `completed` write of the try block; its own rejection still
throws into the `catch`. -/
def emitCompleted (wOk : Nat → Bool) (w : WriterState) : WriterState × Option String :=
  let (w₄, ok₄) := emitW wOk .completed w
  (w₄, if ok₄ then none else some writeFailMsg)

/-- The part of the try block after `created`/`in_progress`: the tool loop
when calls were extracted, the static informational deltas otherwise, then
`completed`. -/
def bodyCore {σ : Type} (wOk : Nat → Bool)
    (exec : σ → String → Args → σ × Except String ToolData) (s : σ)
    (input : JsInput) (tools : List ToolDef) (w₂ : WriterState) :
    WriterState × Option String :=
  let toolCalls := _extractToolCalls input tools
  if toolCalls.isEmpty then
    match emitDeltas wOk (noToolsMessage.splitOn " ") w₂ with
    | (w₃, true) => emitCompleted wOk w₃
    | (w₃, false) => (w₃, some writeFailMsg)
  else
    match runStreamTools wOk exec toolCalls s w₂ with
    | (_, w₃, none) => emitCompleted wOk w₃
    | (_, w₃, some m) => (w₃, some m)

/-- The whole try block: channel state on exit plus the thrown message, if
any. -/
def streamBody {σ : Type} (wOk : Nat → Bool)
    (exec : σ → String → Args → σ × Except String ToolData) (s : σ)
    (input : JsInput) (tools : List ToolDef) : WriterState × Option String :=
  let (w₁, ok₁) := emitW wOk .created ⟨[], 0⟩
  if ok₁ then
    let (w₂, ok₂) := emitW wOk .in_progress w₁
    if ok₂ then bodyCore wOk exec s input tools w₂
    else (w₂, some writeFailMsg)
  else (w₁, some writeFailMsg)

/-- `_processStreamingRequest`: `created`, `in_progress`, the tool loop or
the static informational deltas, `completed`; any throw lands in the
`catch` (one `error` event) and the `finally` closes the channel. -/
def _processStreamingRequest {σ : Type} (wOk : Nat → Bool)
    (exec : σ → String → Args → σ × Except String ToolData) (s : σ)
    (input : JsInput) (tools : List ToolDef) : WriterState :=
  let (wBody, thrown) := streamBody wOk exec s input tools
  let wErr :=
    match thrown with
    | none => wBody
    | some m => (emitW wOk (.error m) wBody).1
  { wErr with trace := wErr.trace ++ [SEvent.close] }

/-! ## Concrete executors used by witnesses -/

/-- An executor whose every call succeeds with a fixed payload. -/
def execAllOk : Unit → String → Args → Unit × Except String ToolData :=
  fun u _ _ => (u, .ok { id := some 1, payload := "d" })

/-- An executor where `resolve_team` fails and every other tool succeeds. -/
def execResolverDown : Unit → String → Args → Unit × Except String ToolData :=
  fun u n _ =>
    if n == "resolve_team" then (u, .error "resolver down")
    else (u, .ok { id := some 147, payload := "roster data" })

/-! # Theorems -/

/-- The key-sorting order is total. -/
theorem lexLe_total : ∀ a b : List Char, lexLe a b = true ∨ lexLe b a = true := by
  intro a
  induction a with
  | nil => intro b; left; rfl
  | cons x xs ih =>
      intro b
      cases b with
      | nil => right; rfl
      | cons y ys =>
          rcases lt_trichotomy x y with h | h | h
          · left; simp [lexLe, h]
          · subst h
            rcases ih ys with h' | h'
            · left; simp [lexLe, lt_irrefl, h']
            · right; simp [lexLe, lt_irrefl, h']
          · right; simp [lexLe, h]

/-- The key-sorting order is transitive. -/
theorem lexLe_trans : ∀ a b c : List Char,
    lexLe a b = true → lexLe b c = true → lexLe a c = true := by
  intro a
  induction a with
  | nil => intro b c _ _; rfl
  | cons x xs ih =>
      intro b c hab hbc
      cases b with
      | nil => simp [lexLe] at hab
      | cons y ys =>
          cases c with
          | nil => simp [lexLe] at hbc
          | cons z zs =>
              by_cases h1 : x < y
              · by_cases h2 : y < z
                · simp [lexLe, lt_trans h1 h2]
                · by_cases h3 : z < y
                  · simp [lexLe, h2, h3] at hbc
                  · have hyz : y = z := le_antisymm (not_lt.mp h3) (not_lt.mp h2)
                    subst hyz
                    simp [lexLe, h1]
              · by_cases h4 : y < x
                · simp [lexLe, h1, h4] at hab
                · have hxy : x = y := le_antisymm (not_lt.mp h4) (not_lt.mp h1)
                  subst hxy
                  simp only [lexLe, if_neg h1, if_neg h4] at hab
                  by_cases h2 : x < z
                  · simp [lexLe, h2]
                  · by_cases h3 : z < x
                    · simp [lexLe, h2, h3] at hbc
                    · simp only [lexLe, if_neg h2, if_neg h3] at hbc ⊢
                      exact ih ys zs hab hbc

/-- The key-sorting order is antisymmetric. -/
theorem lexLe_antisymm : ∀ a b : List Char,
    lexLe a b = true → lexLe b a = true → a = b := by
  intro a
  induction a with
  | nil =>
      intro b _ hba
      cases b with
      | nil => rfl
      | cons y ys => simp [lexLe] at hba
  | cons x xs ih =>
      intro b hab hba
      cases b with
      | nil => simp [lexLe] at hab
      | cons y ys =>
          by_cases h1 : x < y
          · simp [lexLe, h1, lt_asymm h1] at hba
          · by_cases h2 : y < x
            · simp [lexLe, h1, h2] at hab
            · have hxy : x = y := le_antisymm (not_lt.mp h2) (not_lt.mp h1)
              subst hxy
              simp only [lexLe, if_neg h1, if_neg h2] at hab hba
              rw [ih ys hab hba]

/-- Antisymmetry of the string comparison used by `_generateKey`. -/
theorem strLe_antisymm {a b : String} (h1 : strLe a b = true) (h2 : strLe b a = true) :
    a = b :=
  String.ext (lexLe_antisymm _ _ h1 h2)

/-- Sorting the same multiset of keys yields the same list. -/
theorem insertionSort_perm_eq {ka kb : List String} (h : ka.Perm kb) :
    List.insertionSort (fun x y => strLe x y = true) ka
      = List.insertionSort (fun x y => strLe x y = true) kb := by
  haveI : IsTotal String (fun x y : String => strLe x y = true) := ⟨fun a b => lexLe_total _ _⟩
  haveI : IsTrans String (fun x y : String => strLe x y = true) :=
    ⟨fun a b c => lexLe_trans _ _ _⟩
  haveI : IsAntisymm String (fun x y : String => strLe x y = true) :=
    ⟨fun a b => strLe_antisymm⟩
  exact List.eq_of_perm_of_sorted
    ((List.perm_insertionSort _ ka).trans (h.trans (List.perm_insertionSort _ kb).symm))
    (List.sorted_insertionSort _ ka) (List.sorted_insertionSort _ kb)

/-- Object lookup only depends on the key/value pairs when keys are unique,
not on their insertion order. -/
theorem alookup_perm {a b : Args} (h : a.Perm b) :
    (a.map Prod.fst).Nodup → ∀ k, alookup k a = alookup k b := by
  induction h with
  | nil => intro _ _; rfl
  | cons x h ih =>
      intro nd k
      obtain ⟨k', v⟩ := x
      simp only [List.map_cons, List.nodup_cons] at nd
      by_cases hk : k' = k
      · simp [alookup, hk]
      · simp only [alookup, if_neg hk]
        exact ih nd.2 k
  | swap x y l =>
      intro nd k
      obtain ⟨kx, vx⟩ := x
      obtain ⟨ky, vy⟩ := y
      simp only [List.map_cons, List.nodup_cons, List.mem_cons] at nd
      have hne : ky ≠ kx := fun hh => nd.1 (Or.inl hh)
      by_cases hky : ky = k
      · have hkx : kx ≠ k := fun hh => hne (hky.trans hh.symm)
        simp [alookup, hky, hkx]
      · by_cases hkx : kx = k
        · simp [alookup, hky, hkx]
        · simp [alookup, hky, hkx]
  | trans h1 h2 ih1 ih2 =>
      intro nd k
      exact (ih1 nd k).trans (ih2 (((h1.map Prod.fst).nodup_iff).mp nd) k)

/-- **C4.** For every tool name and every pair of argument mappings holding
identical key/value pairs (possibly inserted in different orders, keys
unique as in a JS object), `_generateKey` derives the identical cache
key. -/
theorem cacheKey_order_insensitive (tool : String) (a b : Args)
    (hperm : a.Perm b) (hnd : (a.map Prod.fst).Nodup) :
    _generateKey tool a = _generateKey tool b := by
  have hkeys := insertionSort_perm_eq (hperm.map Prod.fst)
  have hfun : (fun key => key ++ ":" ++ (alookup key a).getD "")
      = (fun key => key ++ ":" ++ (alookup key b).getD "") := by
    funext k
    rw [alookup_perm hperm hnd k]
  simp only [_generateKey]
  rw [hkeys, hfun]

/-- Witness for C4 at a concrete pair of reordered argument mappings. -/
theorem cacheKey_order_insensitive_witness :
    ([(("b" : String), ("2" : String)), ("a", "1")].Perm [("a", "1"), ("b", "2")])
    ∧ (([(("b" : String), ("2" : String)), ("a", "1")].map Prod.fst).Nodup)
    ∧ _generateKey "get_team_info" [("b", "2"), ("a", "1")]
        = _generateKey "get_team_info" [("a", "1"), ("b", "2")] :=
  ⟨by decide, by decide,
    cacheKey_order_insensitive "get_team_info" _ _ (by decide) (by decide)⟩

/-- **C6.** A hot entry written at time `T` is absent from `get` one second
past its `hotTTL` deadline (times in ms, TTLs in seconds): the entry is
valid only while `(now - timestamp)/1000 < hotTTL`, and with no valid cold
entry for the key the get returns absent. -/
theorem hot_entry_expired_absent (c : CacheConfig) (promoOk : Bool) (s : CacheState)
    (storeH : List (String × HotEntry)) (tool : String) (args : Args) (p : String) (T : Nat)
    (hkv : s.kv = some storeH)
    (hhot : tierGet (_generateKey tool args) storeH = some ⟨p, T⟩)
    (hcold : ∀ storeC ce, s.r2 = some storeC →
        tierGet (_generateKey tool args) storeC = some ce →
        _isValid (T + (c.hotTTL + 1) * 1000) ce.timestamp c.coldTTL = false) :
    (cacheGet c promoOk s (T + (c.hotTTL + 1) * 1000) tool args).2 = none := by
  have hinvalid : _isValid (T + (c.hotTTL + 1) * 1000) T c.hotTTL = false := by
    simp only [_isValid]
    have harith : T + (c.hotTTL + 1) * 1000 - T = (c.hotTTL + 1) * 1000 := by omega
    rw [harith, Nat.mul_div_cancel _ (by norm_num : (0 : Nat) < 1000)]
    simp only [decide_eq_false_iff_not]
    omega
  cases hr2 : s.r2 with
  | none => simp [cacheGet, hkv, hhot, hinvalid, hr2]
  | some storeC =>
      cases hlook : tierGet (_generateKey tool args) storeC with
      | none => simp [cacheGet, hkv, hhot, hinvalid, hr2, hlook]
      | some ce =>
          simp [cacheGet, hkv, hhot, hinvalid, hr2, hlook, hcold storeC ce hr2 hlook]

/-- Witness for C6: a hot entry stamped at `T = 0` with the default TTLs is
absent at `T + (hotTTL + 1)` seconds when the cold tier is unbound. -/
theorem hot_entry_expired_absent_witness :
    (cacheGet ⟨10, 300⟩ true
        ⟨some [("sports:get_team_info:", ⟨"d", 0⟩)], none⟩
        (0 + (10 + 1) * 1000) "get_team_info" []).2 = none :=
  hot_entry_expired_absent ⟨10, 300⟩ true _ _ "get_team_info" [] "d" 0
    rfl (by decide) (fun storeC ce h _ => by cases h)

/-- **C5.** A `get` that misses the hot tier but hits a cold entry within
`coldTTL` promotes: it returns tier `cold` with age from the cold entry's
original timestamp, rewrites the hot entry with the cold payload and the
current time, and an immediately subsequent `get` within `hotTTL` of the
promotion reports tier `hot`. -/
theorem cold_hit_promotes (c : CacheConfig) (s : CacheState)
    (storeH : List (String × HotEntry)) (storeC : List (String × ColdEntry))
    (tool : String) (args : Args) (ce : ColdEntry) (now₁ now₂ : Nat)
    (hkv : s.kv = some storeH)
    (hhot : ∀ e, tierGet (_generateKey tool args) storeH = some e →
        _isValid now₁ e.timestamp c.hotTTL = false)
    (hr2 : s.r2 = some storeC)
    (hcoldhit : tierGet (_generateKey tool args) storeC = some ce)
    (hvalid : _isValid now₁ ce.timestamp c.coldTTL = true)
    (hfresh : _isValid now₂ now₁ c.hotTTL = true) :
    (cacheGet c true s now₁ tool args).2
        = some ⟨ce.payload, "cold", now₁ - ce.timestamp⟩
    ∧ (∃ storeH', (cacheGet c true s now₁ tool args).1.kv = some storeH'
        ∧ tierGet (_generateKey tool args) storeH' = some ⟨ce.payload, now₁⟩)
    ∧ (cacheGet c true (cacheGet c true s now₁ tool args).1 now₂ tool args).2
        = some ⟨ce.payload, "hot", now₂ - now₁⟩ := by
  have h1 : cacheGet c true s now₁ tool args
      = ({ s with kv := some (tierPut storeH (_generateKey tool args) ⟨ce.payload, now₁⟩) },
         some ⟨ce.payload, "cold", now₁ - ce.timestamp⟩) := by
    cases hlookH : tierGet (_generateKey tool args) storeH with
    | none => simp [cacheGet, hkv, hr2, hlookH, hcoldhit, hvalid, _setHot]
    | some e => simp [cacheGet, hkv, hr2, hlookH, hhot e hlookH, hcoldhit, hvalid, _setHot]
  refine ⟨by rw [h1], ⟨tierPut storeH (_generateKey tool args) ⟨ce.payload, now₁⟩,
    by rw [h1], by simp [tierGet, tierPut]⟩, ?_⟩
  rw [h1]
  simp [cacheGet, tierPut, tierGet, hfresh]

/-- Witness for C5: with the default TTLs, a cold entry stamped `T = 0` hit
at `T + 11` seconds is served as tier `cold` and the follow-up get one
second later is served as tier `hot`. -/
theorem cold_hit_promotes_witness :
    (cacheGet ⟨10, 300⟩ true
        ⟨some [], some [("sports:get_team_info:", ⟨"d", 0, "get_team_info", []⟩)]⟩
        11000 "get_team_info" []).2 = some ⟨"d", "cold", 11000 - 0⟩
    ∧ (cacheGet ⟨10, 300⟩ true
        (cacheGet ⟨10, 300⟩ true
          ⟨some [], some [("sports:get_team_info:", ⟨"d", 0, "get_team_info", []⟩)]⟩
          11000 "get_team_info" []).1
        12000 "get_team_info" []).2 = some ⟨"d", "hot", 12000 - 11000⟩ := by
  have h := cold_hit_promotes ⟨10, 300⟩
    ⟨some [], some [("sports:get_team_info:", ⟨"d", 0, "get_team_info", []⟩)]⟩
    [] [("sports:get_team_info:", ⟨"d", 0, "get_team_info", []⟩)]
    "get_team_info" [] ⟨"d", 0, "get_team_info", []⟩ 11000 12000
    rfl (fun e he => by cases he) rfl (by decide) (by decide) (by decide)
  exact ⟨h.1, h.2.2⟩

/-- **C10.** `set` never throws: with the hot tier bound, a rejected hot
write is caught and `set` returns `false`; and a tool execution that
succeeded against the backend (on a cache miss) still returns its payload
to the caller whatever the cache writes do. -/
theorem set_failure_caught_execution_returns :
    (∀ (okCold : Bool) (s : CacheState) (store : List (String × HotEntry))
        (nowMs : Nat) (tool : String) (args : Args) (data : String),
        s.kv = some store →
        (cacheSet false okCold s nowMs tool args data).2 = false)
    ∧ (∀ (c : CacheConfig) (backend : String → Args → Except String String)
        (promoOk okHot okCold : Bool) (s : CacheState) (nowMs : Nat)
        (tool : String) (args : Args) (data : String),
        backend tool args = Except.ok data →
        (cacheGet c promoOk s nowMs tool args).2 = none →
        (_executeSingleTool c backend promoOk okHot okCold s nowMs tool args).2
          = Except.ok data) := by
  constructor
  · intro okCold s store nowMs tool args data hkv
    simp [cacheSet, _setHot, hkv]
  · intro c backend promoOk okHot okCold s nowMs tool args data hback hmiss
    cases hg : cacheGet c promoOk s nowMs tool args with
    | mk s' r =>
        rw [hg] at hmiss
        simp only at hmiss
        subst hmiss
        cases hset : cacheSet okHot okCold s' nowMs tool args data with
        | mk s'' b => simp [_executeSingleTool, hg, hback, hset]

/-- Witness for C10: a rejected hot write turns `set` into `false`, and an
executor with both writes rejected still returns the backend payload. -/
theorem set_failure_caught_execution_returns_witness :
    (cacheSet false true ⟨some [], none⟩ 0 "get_team_info" [] "d").2 = false
    ∧ (_executeSingleTool ⟨10, 300⟩ (fun _ _ => Except.ok "D") true false false
        ⟨some [], some []⟩ 0 "get_team_info" []).2 = Except.ok "D" :=
  ⟨set_failure_caught_execution_returns.1 true ⟨some [], none⟩ [] 0 "get_team_info" [] "d" rfl,
   set_failure_caught_execution_returns.2 ⟨10, 300⟩ (fun _ _ => Except.ok "D")
     true false false ⟨some [], some []⟩ 0 "get_team_info" [] "D" rfl (by decide)⟩

/-- Reading back the key just written by a JS property assignment. -/
theorem alookup_setKey_self : ∀ (args : Args) (k v : String),
    alookup k (setKey args k v) = some v := by
  intro args k v
  induction args with
  | nil => simp [setKey, alookup]
  | cons kv' rest ih =>
      obtain ⟨k', v'⟩ := kv'
      by_cases h : k' = k
      · simp [setKey, h, alookup]
      · simp [setKey, h, alookup, ih]

/-- C1 counterexample: the enrichment guard is JS falsiness, not absence.
A `teamId` that is *present* with value `""` is overwritten by the resolved
id, contradicting "explicit arguments already present are never
overwritten". -/
theorem enrich_overwrites_present_empty_arg :
    alookup "teamId" [("teamId", "")] = some ""
    ∧ _enrichToolArguments ⟨"get_team_roster", [("teamId", "")]⟩
        [("team", { id := some 147, payload := "" })]
      = [("teamId", "147")] := by decide

/-- **C1 (amended).** For a Phase-2 tool requiring an entity type with a
resolved entity carrying a truthy id `n`: when the corresponding argument
key is falsy (absent *or* the empty string) the enriched arguments bind it
to `toString n`; when it is present with a truthy value it is unchanged. -/
theorem enrich_injects_resolved_id (name eTy key : String) (args : Args)
    (m : List (String × ToolData)) (d : ToolData) (n : Nat)
    (hmem : (name, eTy, key) ∈ requiredKeyTable)
    (hm : tierGet eTy m = some d) (hid : d.id = some n) (hn : n ≠ 0) :
    alookup key (_enrichToolArguments ⟨name, args⟩ m)
      = if jsFalsyOpt (alookup key args) then some (toString n)
        else alookup key args := by
  have hhas : jsHasId d = true := by
    simp [jsHasId, hid, hn]
  have heq : _enrichToolArguments ⟨name, args⟩ m
      = if jsFalsyOpt (alookup key args) then setKey args key (toString n) else args := by
    fin_cases hmem <;>
      simp [_enrichToolArguments, toolEntityMap, hm, hhas, idString, hid]
  rw [heq]
  by_cases hf : jsFalsyOpt (alookup key args)
  · simp [hf, alookup_setKey_self]
  · simp [hf]

/-- Witness for C1 (amended) at `get_team_roster` with no explicit
arguments and a resolved team id `147`. -/
theorem enrich_injects_resolved_id_witness :
    alookup "teamId" (_enrichToolArguments ⟨"get_team_roster", []⟩
        [("team", { id := some 147, payload := "" })])
      = if jsFalsyOpt (alookup "teamId" ([] : Args)) then some (toString 147)
        else alookup "teamId" ([] : Args) :=
  enrich_injects_resolved_id "get_team_roster" "team" "teamId" []
    [("team", { id := some 147, payload := "" })] { id := some 147, payload := "" } 147
    (by decide) rfl rfl (by decide)

/-- Phase-1 characterisation: one result per resolver call, in input order,
every result a resolver result, failures carrying an error message. -/
theorem phase1_spec {σ : Type} (exec : σ → String → Args → σ × Except String ToolData) :
    ∀ (calls : List ToolCall) (s : σ) (m : List (String × ToolData)),
      (((phase1 exec s m calls).2.2).map ExecutionResult.tool
          = (calls.filter fun tc => isResolverName tc.name).map ToolCall.name)
      ∧ ∀ r ∈ (phase1 exec s m calls).2.2,
          isResolverName r.tool = true ∧ (r.success = false → r.error ≠ none) := by
  intro calls
  induction calls with
  | nil => intro s m; exact ⟨rfl, by intro r hr; simp [phase1] at hr⟩
  | cons tc rest ih =>
      intro s m
      by_cases hres : isResolverName tc.name
      · cases hexec : exec s tc.name tc.arguments with
        | mk s' res =>
            cases res with
            | ok d =>
                rcases hrec : phase1 exec s'
                    (if jsHasId d then ((if tc.name == "resolve_team" then "team" else "player"), d) :: m else m)
                    rest with ⟨s'', m'', res''⟩
                have hih := ih s'
                  (if jsHasId d then ((if tc.name == "resolve_team" then "team" else "player"), d) :: m else m)
                rw [hrec] at hih
                constructor
                · simp only [phase1, if_pos hres, hexec, hrec, List.filter_cons, hres,
                    List.map_cons]
                  exact congrArg _ hih.1
                · intro r hr
                  simp only [phase1, if_pos hres, hexec, hrec, List.mem_cons] at hr
                  rcases hr with rfl | hr
                  · exact ⟨hres, by intro h; cases h⟩
                  · exact hih.2 r hr
            | error e =>
                rcases hrec : phase1 exec s' m rest with ⟨s'', m'', res''⟩
                have hih := ih s' m
                rw [hrec] at hih
                constructor
                · simp only [phase1, if_pos hres, hexec, hrec, List.filter_cons, hres,
                    List.map_cons]
                  exact congrArg _ hih.1
                · intro r hr
                  simp only [phase1, if_pos hres, hexec, hrec, List.mem_cons] at hr
                  rcases hr with rfl | hr
                  · exact ⟨hres, by intro _ h; cases h⟩
                  · exact hih.2 r hr
      · have hih := ih s m
        constructor
        · simp only [phase1, if_neg hres, List.filter_cons]
          simpa [hres] using hih.1
        · intro r hr
          simp only [phase1, if_neg hres] at hr
          exact hih.2 r hr

/-- Phase-2 characterisation: one result per non-resolver call, in input
order, no resolver results, failures carrying an error message. -/
theorem phase2_spec {σ : Type} (exec : σ → String → Args → σ × Except String ToolData) :
    ∀ (calls : List ToolCall) (s : σ) (m : List (String × ToolData)),
      (((phase2 exec s m calls).2).map ExecutionResult.tool
          = (calls.filter fun tc => !(isResolverName tc.name)).map ToolCall.name)
      ∧ ∀ r ∈ (phase2 exec s m calls).2,
          isResolverName r.tool = false ∧ (r.success = false → r.error ≠ none) := by
  intro calls
  induction calls with
  | nil => intro s m; exact ⟨rfl, by intro r hr; simp [phase2] at hr⟩
  | cons tc rest ih =>
      intro s m
      by_cases hres : isResolverName tc.name
      · have hih := ih s m
        constructor
        · simp only [phase2, if_pos hres, List.filter_cons]
          simpa [hres] using hih.1
        · intro r hr
          simp only [phase2, if_pos hres] at hr
          exact hih.2 r hr
      · cases hexec : exec s tc.name (_enrichToolArguments tc m) with
        | mk s' res =>
            cases res with
            | ok d =>
                rcases hrec : phase2 exec s' m rest with ⟨s'', res''⟩
                have hih := ih s' m
                rw [hrec] at hih
                constructor
                · simp only [phase2, if_neg hres, hexec, hrec, List.filter_cons,
                    List.map_cons]
                  simpa [hres] using congrArg (List.cons tc.name) hih.1
                · intro r hr
                  simp only [phase2, if_neg hres, hexec, hrec, List.mem_cons] at hr
                  rcases hr with rfl | hr
                  · exact ⟨Bool.of_not_eq_true hres, by intro h; cases h⟩
                  · exact hih.2 r hr
            | error e =>
                rcases hrec : phase2 exec s' m rest with ⟨s'', res''⟩
                have hih := ih s' m
                rw [hrec] at hih
                constructor
                · simp only [phase2, if_neg hres, hexec, hrec, List.filter_cons,
                    List.map_cons]
                  simpa [hres] using congrArg (List.cons tc.name) hih.1
                · intro r hr
                  simp only [phase2, if_neg hres, hexec, hrec, List.mem_cons] at hr
                  rcases hr with rfl | hr
                  · exact ⟨Bool.of_not_eq_true hres, by intro _ h; cases h⟩
                  · exact hih.2 r hr

/-- Splitting a list by a predicate preserves its length. -/
theorem filter_length_split {α : Type} (p : α → Bool) (l : List α) :
    (l.filter p).length + (l.filter fun x => !(p x)).length = l.length := by
  induction l with
  | nil => rfl
  | cons x xs ih =>
      by_cases h : p x <;> simp [List.filter_cons, h] <;> omega

/-- **C2.** For every executor behaviour and every input list of tool
calls, the result list of `_processToolCalls` places all resolver-call
results before all non-resolver results: it equals its resolver results
followed by its non-resolver results. -/
theorem resolver_results_precede {σ : Type}
    (exec : σ → String → Args → σ × Except String ToolData) (s : σ)
    (calls : List ToolCall) :
    _processToolCalls exec s calls
      = ((_processToolCalls exec s calls).filter fun r => isResolverName r.tool)
        ++ ((_processToolCalls exec s calls).filter fun r => !(isResolverName r.tool)) := by
  rcases hp1 : phase1 exec s [] calls with ⟨s₁, m, res₁⟩
  rcases hp2 : phase2 exec s₁ m calls with ⟨s₂, res₂⟩
  have hpc : _processToolCalls exec s calls = res₁ ++ res₂ := by
    simp [_processToolCalls, hp1, hp2]
  have h1 := (phase1_spec exec calls s []).2
  rw [hp1] at h1
  have h2 := (phase2_spec exec calls s₁ m).2
  rw [hp2] at h2
  have hf1 : res₁.filter (fun r => isResolverName r.tool) = res₁ :=
    List.filter_eq_self.mpr fun r hr => (h1 r hr).1
  have hf1' : res₁.filter (fun r => !(isResolverName r.tool)) = [] := by
    rw [List.filter_eq_nil_iff]
    intro r hr
    simp [(h1 r hr).1]
  have hf2 : res₂.filter (fun r => isResolverName r.tool) = [] := by
    rw [List.filter_eq_nil_iff]
    intro r hr
    simp [(h2 r hr).1]
  have hf2' : res₂.filter (fun r => !(isResolverName r.tool)) = res₂ :=
    List.filter_eq_self.mpr fun r hr => by simp [(h2 r hr).1]
  rw [hpc, List.filter_append, List.filter_append, hf1, hf1', hf2, hf2']
  simp

/-- **C3.** `_processToolCalls` never throws: it returns exactly one result
per call, every failed result carries an error message, every non-resolver
call is attempted whatever the resolver outcomes (their results appear in
input order), and in the canonical scenario a failed `resolve_team`
followed by a `get_team_roster` still executes the roster call with its
original, un-enriched arguments and records each outcome independently. -/
theorem process_captures_all_failures {σ : Type}
    (exec : σ → String → Args → σ × Except String ToolData) (s : σ)
    (calls : List ToolCall) :
    ((_processToolCalls exec s calls).length = calls.length)
    ∧ (∀ r ∈ _processToolCalls exec s calls, r.success = false → r.error ≠ none)
    ∧ (((_processToolCalls exec s calls).filter fun r => !(isResolverName r.tool)).map
          ExecutionResult.tool
        = (calls.filter fun tc => !(isResolverName tc.name)).map ToolCall.name)
    ∧ (∀ (a : Args) (em : String) (d : ToolData) (s₁ s₂ : σ),
        exec s "resolve_team" a = (s₁, .error em) →
        exec s₁ "get_team_roster" [] = (s₂, .ok d) →
        _processToolCalls exec s [⟨"resolve_team", a⟩, ⟨"get_team_roster", []⟩]
          = [{ tool := "resolve_team", success := false, error := some em },
             { tool := "get_team_roster", success := true, result := some d,
               enriched := some true }]) := by
  rcases hp1 : phase1 exec s [] calls with ⟨s₁, m, res₁⟩
  rcases hp2 : phase2 exec s₁ m calls with ⟨s₂, res₂⟩
  have hpc : _processToolCalls exec s calls = res₁ ++ res₂ := by
    simp [_processToolCalls, hp1, hp2]
  have h1 := phase1_spec exec calls s []
  rw [hp1] at h1
  have h2 := phase2_spec exec calls s₁ m
  rw [hp2] at h2
  refine ⟨?_, ?_, ?_, ?_⟩
  · have l1 : res₁.length = (calls.filter fun tc => isResolverName tc.name).length := by
      have := congrArg List.length h1.1
      simpa using this
    have l2 : res₂.length = (calls.filter fun tc => !(isResolverName tc.name)).length := by
      have := congrArg List.length h2.1
      simpa using this
    rw [hpc, List.length_append, l1, l2,
      filter_length_split (fun tc => isResolverName tc.name) calls]
  · intro r hr
    rw [hpc, List.mem_append] at hr
    rcases hr with hr | hr
    · exact (h1.2 r hr).2
    · exact (h2.2 r hr).2
  · have hf1' : res₁.filter (fun r => !(isResolverName r.tool)) = [] := by
      rw [List.filter_eq_nil_iff]
      intro r hr
      simp [(h1.2 r hr).1]
    have hf2' : res₂.filter (fun r => !(isResolverName r.tool)) = res₂ :=
      List.filter_eq_self.mpr fun r hr => by simp [(h2.2 r hr).1]
    rw [hpc, List.filter_append, hf1', hf2']
    simpa using h2.1
  · intro a em d t₁ t₂ hfail hok
    have henrich : _enrichToolArguments ⟨"get_team_roster", []⟩ [] = [] := rfl
    simp [_processToolCalls, phase1, phase2, isResolverName, hfail, hok, henrich]

/-- Witness for C3: the canonical scenario run with a concrete executor
whose `resolve_team` fails while `get_team_roster` succeeds. -/
theorem process_captures_all_failures_witness :
    _processToolCalls execResolverDown ()
        [⟨"resolve_team", [("name", "yankees")]⟩, ⟨"get_team_roster", []⟩]
      = [{ tool := "resolve_team", success := false, error := some "resolver down" },
         { tool := "get_team_roster", success := true,
           result := some { id := some 147, payload := "roster data" },
           enriched := some true }] :=
  (process_captures_all_failures execResolverDown ()
      [⟨"resolve_team", [("name", "yankees")]⟩, ⟨"get_team_roster", []⟩]).2.2.2
    [("name", "yankees")] "resolver down" { id := some 147, payload := "roster data" }
    () () rfl rfl

/-- Every resolver-pass extraction call is a resolver call. -/
theorem resolverCallsOf_resolver (text : String) (tools : List ToolDef) :
    ∀ tc ∈ resolverCallsOf text tools, isResolverName tc.name = true := by
  intro tc htc
  simp only [resolverCallsOf, List.mem_append] at htc
  rcases htc with h | h
  · revert h
    split
    · split
      · intro h
        simp only [List.mem_singleton] at h
        subst h
        rfl
      · intro h; cases h
    · intro h; cases h
  · revert h
    split
    · split
      · intro h
        simp only [List.mem_singleton] at h
        subst h
        rfl
      · intro h; cases h
    · intro h; cases h

/-- When the roster intent matches and the roster tool is declared, the
data chain emits exactly the roster call. -/
theorem dataCallsOf_roster (text : String) (tools : List ToolDef)
    (hintent : (intentRoster.any fun p => jsIncludes text p) = true)
    (htool : hasTool tools "get_team_roster" = true) :
    dataCallsOf text tools = [⟨"get_team_roster", []⟩] := by
  simp [dataCallsOf, hintent, htool]

/-- C8 counterexample: the intent keyphrase `roster` matches and
`get_team_roster` is supplied, yet — no entity pattern having matched —
extraction emits no call at all, contradicting the claimed independence
from entity matches. -/
theorem extract_intent_without_entity_empty :
    ((intentRoster.any fun p => jsIncludes (flattenLower (.str "show me the roster")) p) = true)
    ∧ (hasTool [⟨"get_team_roster", ""⟩] "get_team_roster" = true)
    ∧ _extractToolCalls (.str "show me the roster") [⟨"get_team_roster", ""⟩] = [] := by
  decide

/-- **C8 (amended).** When the flattened lower-cased text matches a roster
intent keyphrase, `get_team_roster` is among the supplied tools, *and at
least one entity pattern (team or player) matched the input*, extraction
emits exactly one non-resolver ToolCall: `get_team_roster` with empty
arguments. -/
theorem extract_roster_needs_entity (input : JsInput) (tools : List ToolDef)
    (hentity : ((entityTeams.any fun t => jsIncludes (flattenLower input) t)
        || (entityPlayers.any fun p => jsIncludes (flattenLower input) p)) = true)
    (hintent : (intentRoster.any fun p => jsIncludes (flattenLower input) p) = true)
    (htool : hasTool tools "get_team_roster" = true) :
    (_extractToolCalls input tools).filter (fun tc => !(isResolverName tc.name))
      = [⟨"get_team_roster", []⟩] := by
  have hne : tools.isEmpty = false := by
    cases tools with
    | nil => simp [hasTool] at htool
    | cons t ts => rfl
  have hres : (resolverCallsOf (flattenLower input) tools).filter
      (fun tc => !(isResolverName tc.name)) = [] := by
    rw [List.filter_eq_nil_iff]
    intro tc htc
    simp [resolverCallsOf_resolver _ _ tc htc]
  simp only [_extractToolCalls, hne, Bool.false_eq_true, if_false, hentity, if_true,
    List.filter_append, hres, dataCallsOf_roster _ _ hintent htool]
  simp [isResolverName]

/-- Witness for C8 (amended): "yankees roster" with the resolver and the
roster tool declared. -/
theorem extract_roster_needs_entity_witness :
    (_extractToolCalls (.str "yankees roster")
        [⟨"resolve_team", ""⟩, ⟨"get_team_roster", ""⟩]).filter
        (fun tc => !(isResolverName tc.name))
      = [⟨"get_team_roster", []⟩] :=
  extract_roster_needs_entity (.str "yankees roster")
    [⟨"resolve_team", ""⟩, ⟨"get_team_roster", ""⟩]
    (by decide) (by decide) (by decide)

set_option maxRecDepth 100000 in
/-- C9 counterexample: for the request `input = "hello"` with no tools, no
memories and no continuation, neither usage field is `ceil(length/4)` of
the respective text: the input count is taken from the *processed* message
array (length 1, so 1 token instead of `ceil(5/4) = 2`), and the no-tool
branch hardcodes `output_tokens = 50` regardless of the output text. -/
theorem usage_not_text_length_counterexample :
    ((processResponsesAPIRequest execAllOk () (.str "hello") [] none none).usage.input_tokens
        ≠ (String.length "hello" + 3) / 4)
    ∧ ((processResponsesAPIRequest execAllOk () (.str "hello") [] none none).usage.output_tokens
        ≠ ((processResponsesAPIRequest execAllOk () (.str "hello") [] none
            none).output_text.length + 3) / 4) := by
  decide

/-- **C9 (amended).** Usage token counts are the deterministic function
`_estimateTokens = ceil(jsLen/4)` (JS `.length`: characters of a string,
elements of a message array) applied to the *processed* input;
`output_tokens` is `_estimateTokens` of the output text when tool calls
were executed and the constant `50` when none were; `total_tokens` is
their sum.  Identical requests against identical executor behaviour
therefore report identical counts. -/
theorem usage_deterministic_formula {σ : Type}
    (exec : σ → String → Args → σ × Except String ToolData) (s : σ)
    (input : JsInput) (tools : List ToolDef) (memories : Option (List Memory))
    (previous_response_id : Option String) :
    ((processResponsesAPIRequest exec s input tools memories
        previous_response_id).usage.input_tokens
      = _estimateTokens (_processInputWithMemories input memories previous_response_id))
    ∧ ((processResponsesAPIRequest exec s input tools memories
        previous_response_id).usage.output_tokens
      = if (_extractToolCalls (_processInputWithMemories input memories
            previous_response_id) tools).isEmpty then 50
        else _estimateTokens (.str (processResponsesAPIRequest exec s input tools memories
            previous_response_id).output_text))
    ∧ ((processResponsesAPIRequest exec s input tools memories
        previous_response_id).usage.total_tokens
      = (processResponsesAPIRequest exec s input tools memories
          previous_response_id).usage.input_tokens
        + (processResponsesAPIRequest exec s input tools memories
            previous_response_id).usage.output_tokens) := by
  cases h : (_extractToolCalls (_processInputWithMemories input memories
      previous_response_id) tools).isEmpty <;>
    simp [processResponsesAPIRequest, h]

/-- An accepted write appends its event and advances the attempt count. -/
theorem emitW_true {wOk : Nat → Bool} {e : SEvent} {s : WriterState}
    (h : wOk s.attempts = true) :
    emitW wOk e s = ({ trace := s.trace ++ [e], attempts := s.attempts + 1 }, true) := by
  simp [emitW, h]

/-- A rejected write leaves the trace unchanged. -/
theorem emitW_false {wOk : Nat → Bool} {e : SEvent} {s : WriterState}
    (h : wOk s.attempts = false) :
    emitW wOk e s = ({ s with attempts := s.attempts + 1 }, false) := by
  simp [emitW, h]

/-- A mid-stream event is none of `completed`, `close`, `error`. -/
theorem midEvent_ne {e : SEvent} (h : midEvent e = true) :
    e ≠ SEvent.completed ∧ e ≠ SEvent.close ∧ ∀ m, e ≠ SEvent.error m := by
  cases e <;> simp_all [midEvent]

/-- A list avoiding an element counts it zero times. -/
theorem count_eq_zero_of_ne {Δ : List SEvent} {a : SEvent} (h : ∀ e ∈ Δ, e ≠ a) :
    List.count a Δ = 0 :=
  List.count_eq_zero.mpr fun hmem => (h a hmem) rfl

/-- The delta emitter only appends delta events. -/
theorem emitDeltas_trace (wOk : Nat → Bool) :
    ∀ (ws : List String) (s : WriterState), ∃ Δ,
      (emitDeltas wOk ws s).1.trace = s.trace ++ Δ
      ∧ ∀ e ∈ Δ, midEvent e = true := by
  intro ws
  induction ws with
  | nil => intro s; exact ⟨[], by simp [emitDeltas], by simp⟩
  | cons w ws ih =>
      intro s
      cases h : wOk s.attempts with
      | true =>
          obtain ⟨Δ, hΔ, hall⟩ :=
            ih { trace := s.trace ++ [SEvent.delta (w ++ " ")], attempts := s.attempts + 1 }
          refine ⟨SEvent.delta (w ++ " ") :: Δ, ?_, ?_⟩
          · simp only [emitDeltas, emitW, h, eq_self_iff_true, if_true]
            rw [hΔ]
            simp
          · intro e he
            rcases List.mem_cons.mp he with rfl | he
            · rfl
            · exact hall e he
      | false =>
          refine ⟨[], ?_, by simp⟩
          simp [emitDeltas, emitW, h]

/-- The tool loop only appends tool-call, tool-result and delta events. -/
theorem runStreamTools_trace {σ : Type} (wOk : Nat → Bool)
    (exec : σ → String → Args → σ × Except String ToolData) :
    ∀ (calls : List ToolCall) (st : σ) (w : WriterState), ∃ Δ,
      (runStreamTools wOk exec calls st w).2.1.trace = w.trace ++ Δ
      ∧ ∀ e ∈ Δ, midEvent e = true := by
  intro calls
  induction calls with
  | nil => intro st w; exact ⟨[], by simp [runStreamTools], by simp⟩
  | cons tc rest ih =>
      intro st w
      cases h1 : wOk w.attempts with
      | false =>
          refine ⟨[], ?_, by simp⟩
          simp [runStreamTools, emitW, h1]
      | true =>
          cases hexec : exec st tc.name tc.arguments with
          | mk st' r =>
              cases r with
              | error m =>
                  refine ⟨[SEvent.tool_call tc.name tc.arguments], ?_, ?_⟩
                  · simp [runStreamTools, emitW, h1, hexec]
                  · intro e he
                    rcases List.mem_singleton.mp he with rfl
                    rfl
              | ok d =>
                  cases h2 : wOk (w.attempts + 1) with
                  | false =>
                      refine ⟨[SEvent.tool_call tc.name tc.arguments], ?_, ?_⟩
                      · simp [runStreamTools, emitW, h1, h2, hexec]
                      · intro e he
                        rcases List.mem_singleton.mp he with rfl
                        rfl
                  | true =>
                      obtain ⟨Δd, hΔd, halld⟩ :=
                        emitDeltas_trace wOk ((_formatSingleToolResult tc.name d).splitOn " ")
                          { trace := (w.trace ++ [SEvent.tool_call tc.name tc.arguments])
                              ++ [SEvent.tool_result tc.name (serializeToolData d)],
                            attempts := w.attempts + 1 + 1 }
                      cases hdel : emitDeltas wOk ((_formatSingleToolResult tc.name d).splitOn " ")
                          { trace := (w.trace ++ [SEvent.tool_call tc.name tc.arguments])
                              ++ [SEvent.tool_result tc.name (serializeToolData d)],
                            attempts := w.attempts + 1 + 1 } with
                      | mk w₃ ok =>
                          rw [hdel] at hΔd
                          simp only at hΔd
                          cases ok with
                          | false =>
                              refine ⟨SEvent.tool_call tc.name tc.arguments ::
                                SEvent.tool_result tc.name (serializeToolData d) :: Δd, ?_, ?_⟩
                              · simp only [runStreamTools, emitW, h1, h2, hexec,
                                  eq_self_iff_true, if_true, hdel]
                                rw [hΔd]
                                simp
                              · intro e he
                                rcases List.mem_cons.mp he with rfl | he
                                · rfl
                                rcases List.mem_cons.mp he with rfl | he
                                · rfl
                                exact halld e he
                          | true =>
                              obtain ⟨Δr, hΔr, hallr⟩ := ih st' w₃
                              refine ⟨SEvent.tool_call tc.name tc.arguments ::
                                SEvent.tool_result tc.name (serializeToolData d) ::
                                  (Δd ++ Δr), ?_, ?_⟩
                              · simp only [runStreamTools, emitW, h1, h2, hexec,
                                  eq_self_iff_true, if_true, hdel]
                                rw [hΔr, hΔd]
                                simp
                              · intro e he
                                rcases List.mem_cons.mp he with rfl | he
                                · rfl
                                rcases List.mem_cons.mp he with rfl | he
                                · rfl
                                rcases List.mem_append.mp he with he | he
                                · exact halld e he
                                · exact hallr e he

/-- With an all-accepting writer, delta emission never fails. -/
theorem emitDeltas_ok (wOk : Nat → Bool) (hw : ∀ n, wOk n = true) :
    ∀ (ws : List String) (s : WriterState), (emitDeltas wOk ws s).2 = true := by
  intro ws
  induction ws with
  | nil => intro s; rfl
  | cons w ws ih =>
      intro s
      simp only [emitDeltas, emitW, hw s.attempts, eq_self_iff_true, if_true]
      exact ih _

/-- With an all-accepting writer and an executor that never fails, the tool
loop throws nothing. -/
theorem runStreamTools_ok {σ : Type} (wOk : Nat → Bool)
    (exec : σ → String → Args → σ × Except String ToolData)
    (hw : ∀ n, wOk n = true)
    (hx : ∀ (st : σ) (nm : String) (a : Args), (exec st nm a).2.isOk = true) :
    ∀ (calls : List ToolCall) (st : σ) (w : WriterState),
      (runStreamTools wOk exec calls st w).2.2 = none := by
  intro calls
  induction calls with
  | nil => intro st w; rfl
  | cons tc rest ih =>
      intro st w
      cases hexec : exec st tc.name tc.arguments with
      | mk st' r =>
          cases r with
          | error m =>
              have hx' := hx st tc.name tc.arguments
              rw [hexec] at hx'
              simp [Except.isOk, Except.toBool] at hx'
          | ok d =>
              cases hdel : emitDeltas wOk ((_formatSingleToolResult tc.name d).splitOn " ")
                  { trace := (w.trace ++ [SEvent.tool_call tc.name tc.arguments])
                      ++ [SEvent.tool_result tc.name (serializeToolData d)],
                    attempts := w.attempts + 1 + 1 } with
              | mk w₃ ok =>
                  have hok : ok = true := by
                    have h' := emitDeltas_ok wOk hw
                      ((_formatSingleToolResult tc.name d).splitOn " ")
                      { trace := (w.trace ++ [SEvent.tool_call tc.name tc.arguments])
                          ++ [SEvent.tool_result tc.name (serializeToolData d)],
                        attempts := w.attempts + 1 + 1 }
                    rw [hdel] at h'
                    exact h'
                  subst hok
                  simp only [runStreamTools, emitW, hw w.attempts, hw (w.attempts + 1),
                    eq_self_iff_true, if_true, hexec, hdel]
                  exact ih st' w₃

/-- The `completed` write either lands (no throw) or is rejected (throw),
leaving the trace untouched. -/
theorem emitCompleted_cases (wOk : Nat → Bool) (w : WriterState) :
    ((emitCompleted wOk w).2 = none
        ∧ (emitCompleted wOk w).1.trace = w.trace ++ [SEvent.completed])
    ∨ ((emitCompleted wOk w).2 = some writeFailMsg
        ∧ (emitCompleted wOk w).1.trace = w.trace) := by
  cases h : wOk w.attempts with
  | true => left; simp [emitCompleted, emitW, h]
  | false => right; simp [emitCompleted, emitW, h]

/-- With an all-accepting writer, `completed` lands. -/
theorem emitCompleted_ok (wOk : Nat → Bool) (hw : ∀ n, wOk n = true)
    (w : WriterState) : (emitCompleted wOk w).2 = none := by
  simp [emitCompleted, emitW, hw w.attempts]

/-- The try-block tail appends only non-terminal events plus exactly one
`completed` — the latter iff it throws nothing. -/
theorem bodyCore_spec {σ : Type} (wOk : Nat → Bool)
    (exec : σ → String → Args → σ × Except String ToolData) (s : σ)
    (input : JsInput) (tools : List ToolDef) (w₂ : WriterState) :
    ∃ Δ, (bodyCore wOk exec s input tools w₂).1.trace = w₂.trace ++ Δ
    ∧ List.count SEvent.completed Δ
        = (if (bodyCore wOk exec s input tools w₂).2 = none then 1 else 0)
    ∧ ∀ e ∈ Δ, e ≠ SEvent.close ∧ ∀ m, e ≠ SEvent.error m := by
  cases hcalls : (_extractToolCalls input tools).isEmpty with
  | true =>
      obtain ⟨Δd, hΔd, halld⟩ := emitDeltas_trace wOk (noToolsMessage.splitOn " ") w₂
      cases hdel : emitDeltas wOk (noToolsMessage.splitOn " ") w₂ with
      | mk w₃ ok =>
          rw [hdel] at hΔd
          simp only at hΔd
          cases ok with
          | true =>
              rcases emitCompleted_cases wOk w₃ with ⟨hres, htr⟩ | ⟨hres, htr⟩
              · refine ⟨Δd ++ [SEvent.completed], ?_, ?_, ?_⟩
                · simp only [bodyCore, hcalls, if_true, hdel]
                  rw [htr, hΔd, List.append_assoc]
                · simp only [bodyCore, hcalls, if_true, hdel, hres]
                  rw [List.count_append,
                    count_eq_zero_of_ne (fun e he => (midEvent_ne (halld e he)).1)]
                  simp
                · intro e he
                  rcases List.mem_append.mp he with he | he
                  · exact ⟨(midEvent_ne (halld e he)).2.1, (midEvent_ne (halld e he)).2.2⟩
                  · rcases List.mem_singleton.mp he with rfl
                    exact ⟨by simp, fun m => by simp⟩
              · refine ⟨Δd, ?_, ?_, ?_⟩
                · simp only [bodyCore, hcalls, if_true, hdel]
                  rw [htr, hΔd]
                · simp only [bodyCore, hcalls, if_true, hdel, hres]
                  rw [count_eq_zero_of_ne (fun e he => (midEvent_ne (halld e he)).1)]
                  simp
                · intro e he
                  exact ⟨(midEvent_ne (halld e he)).2.1, (midEvent_ne (halld e he)).2.2⟩
          | false =>
              refine ⟨Δd, ?_, ?_, ?_⟩
              · simp only [bodyCore, hcalls, if_true, hdel]
                exact hΔd
              · simp only [bodyCore, hcalls, if_true, hdel]
                rw [count_eq_zero_of_ne (fun e he => (midEvent_ne (halld e he)).1)]
                simp
              · intro e he
                exact ⟨(midEvent_ne (halld e he)).2.1, (midEvent_ne (halld e he)).2.2⟩
  | false =>
      obtain ⟨Δt, hΔt, hallt⟩ :=
        runStreamTools_trace wOk exec (_extractToolCalls input tools) s w₂
      cases hrun : runStreamTools wOk exec (_extractToolCalls input tools) s w₂ with
      | mk s' p =>
          cases p with
          | mk w₃ thr =>
              rw [hrun] at hΔt
              simp only at hΔt
              cases thr with
              | none =>
                  rcases emitCompleted_cases wOk w₃ with ⟨hres, htr⟩ | ⟨hres, htr⟩
                  · refine ⟨Δt ++ [SEvent.completed], ?_, ?_, ?_⟩
                    · simp only [bodyCore, hcalls, Bool.false_eq_true, if_false, hrun]
                      rw [htr, hΔt, List.append_assoc]
                    · simp only [bodyCore, hcalls, Bool.false_eq_true, if_false, hrun, hres]
                      rw [List.count_append,
                        count_eq_zero_of_ne (fun e he => (midEvent_ne (hallt e he)).1)]
                      simp
                    · intro e he
                      rcases List.mem_append.mp he with he | he
                      · exact ⟨(midEvent_ne (hallt e he)).2.1, (midEvent_ne (hallt e he)).2.2⟩
                      · rcases List.mem_singleton.mp he with rfl
                        exact ⟨by simp, fun m => by simp⟩
                  · refine ⟨Δt, ?_, ?_, ?_⟩
                    · simp only [bodyCore, hcalls, Bool.false_eq_true, if_false, hrun]
                      rw [htr, hΔt]
                    · simp only [bodyCore, hcalls, Bool.false_eq_true, if_false, hrun, hres]
                      rw [count_eq_zero_of_ne (fun e he => (midEvent_ne (hallt e he)).1)]
                      simp
                    · intro e he
                      exact ⟨(midEvent_ne (hallt e he)).2.1, (midEvent_ne (hallt e he)).2.2⟩
              | some m =>
                  refine ⟨Δt, ?_, ?_, ?_⟩
                  · simp only [bodyCore, hcalls, Bool.false_eq_true, if_false, hrun]
                    exact hΔt
                  · simp only [bodyCore, hcalls, Bool.false_eq_true, if_false, hrun]
                    rw [count_eq_zero_of_ne (fun e he => (midEvent_ne (hallt e he)).1)]
                    simp
                  · intro e he
                    exact ⟨(midEvent_ne (hallt e he)).2.1, (midEvent_ne (hallt e he)).2.2⟩

/-- With an all-accepting writer and a never-failing executor, the
try-block tail throws nothing. -/
theorem bodyCore_ok {σ : Type} (wOk : Nat → Bool)
    (exec : σ → String → Args → σ × Except String ToolData) (s : σ)
    (input : JsInput) (tools : List ToolDef) (w : WriterState)
    (hw : ∀ n, wOk n = true)
    (hx : ∀ (st : σ) (nm : String) (a : Args), (exec st nm a).2.isOk = true) :
    (bodyCore wOk exec s input tools w).2 = none := by
  cases hcalls : (_extractToolCalls input tools).isEmpty with
  | true =>
      cases hdel : emitDeltas wOk (noToolsMessage.splitOn " ") w with
      | mk w₃ ok =>
          have hok : ok = true := by
            have h' := emitDeltas_ok wOk hw (noToolsMessage.splitOn " ") w
            rw [hdel] at h'
            exact h'
          subst hok
          simp only [bodyCore, hcalls, if_true, hdel]
          exact emitCompleted_ok wOk hw w₃
  | false =>
      cases hrun : runStreamTools wOk exec (_extractToolCalls input tools) s w with
      | mk s' p =>
          cases p with
          | mk w₃ thr =>
              have hnone : thr = none := by
                have h' := runStreamTools_ok wOk exec hw hx (_extractToolCalls input tools) s w
                rw [hrun] at h'
                exact h'
              subst hnone
              simp only [bodyCore, hcalls, Bool.false_eq_true, if_false, hrun]
              exact emitCompleted_ok wOk hw w₃

/-- The try block equals its tail run on the channel holding `created` and
`in_progress`, whenever the first two writes land. -/
theorem streamBody_eq_bodyCore {σ : Type} (wOk : Nat → Bool)
    (exec : σ → String → Args → σ × Except String ToolData) (s : σ)
    (input : JsInput) (tools : List ToolDef)
    (h1 : wOk 0 = true) (h2 : wOk 1 = true) :
    streamBody wOk exec s input tools
      = bodyCore wOk exec s input tools ⟨[SEvent.created, SEvent.in_progress], 2⟩ := by
  simp [streamBody, emitW, h1, h2]

/-- The trace of the whole try block: `completed` exactly once iff nothing
was thrown, and never `close` or `error` events. -/
theorem streamBody_spec {σ : Type} (wOk : Nat → Bool)
    (exec : σ → String → Args → σ × Except String ToolData) (s : σ)
    (input : JsInput) (tools : List ToolDef) :
    List.count SEvent.completed (streamBody wOk exec s input tools).1.trace
        = (if (streamBody wOk exec s input tools).2 = none then 1 else 0)
    ∧ ∀ e ∈ (streamBody wOk exec s input tools).1.trace,
        e ≠ SEvent.close ∧ ∀ m, e ≠ SEvent.error m := by
  cases h1 : wOk 0 with
  | false =>
      constructor
      · simp [streamBody, emitW, h1]
      · simp [streamBody, emitW, h1]
  | true =>
      cases h2 : wOk 1 with
      | false =>
          constructor
          · simp [streamBody, emitW, h1, h2]
          · simp [streamBody, emitW, h1, h2]
      | true =>
          rw [streamBody_eq_bodyCore wOk exec s input tools h1 h2]
          obtain ⟨Δ, hΔ, hcnt, hall⟩ :=
            bodyCore_spec wOk exec s input tools ⟨[SEvent.created, SEvent.in_progress], 2⟩
          simp only at hΔ
          constructor
          · rw [hΔ, List.count_append, hcnt]
            have h0 : List.count SEvent.completed [SEvent.created, SEvent.in_progress] = 0 := rfl
            rw [h0, Nat.zero_add]
          · intro e he
            rw [hΔ] at he
            rcases List.mem_append.mp he with he | he
            · rcases List.mem_cons.mp he with rfl | he
              · exact ⟨by simp, fun m => by simp⟩
              rcases List.mem_singleton.mp he with rfl
              exact ⟨by simp, fun m => by simp⟩
            · exact hall e he

/-- With an all-accepting writer and never-failing executor, the try block
throws nothing. -/
theorem streamBody_ok {σ : Type} (wOk : Nat → Bool)
    (exec : σ → String → Args → σ × Except String ToolData) (s : σ)
    (input : JsInput) (tools : List ToolDef)
    (hw : ∀ n, wOk n = true)
    (hx : ∀ (st : σ) (nm : String) (a : Args), (exec st nm a).2.isOk = true) :
    (streamBody wOk exec s input tools).2 = none := by
  rw [streamBody_eq_bodyCore wOk exec s input tools (hw 0) (hw 1)]
  exact bodyCore_ok wOk exec s input tools _ hw hx

/-- **C7.** For every streaming run (any write oracle, executor, state and
input): an `error` event excludes any `completed` event (so none follows
it — error is terminal), `completed` is emitted at most once, the channel
is closed exactly once on every exit path, and on the non-error path (all
writes land, no execution fails) `completed` is emitted exactly once and
no `error` event ever appears. -/
theorem stream_terminal_events {σ : Type} (wOk : Nat → Bool)
    (exec : σ → String → Args → σ × Except String ToolData) (s : σ)
    (input : JsInput) (tools : List ToolDef) :
    (∀ m, SEvent.error m ∈ (_processStreamingRequest wOk exec s input tools).trace →
        SEvent.completed ∉ (_processStreamingRequest wOk exec s input tools).trace)
    ∧ List.count SEvent.completed (_processStreamingRequest wOk exec s input tools).trace ≤ 1
    ∧ List.count SEvent.close (_processStreamingRequest wOk exec s input tools).trace = 1
    ∧ ((∀ n, wOk n = true) →
        (∀ (st : σ) (nm : String) (a : Args), (exec st nm a).2.isOk = true) →
        List.count SEvent.completed (_processStreamingRequest wOk exec s input tools).trace = 1
        ∧ ∀ m, SEvent.error m ∉ (_processStreamingRequest wOk exec s input tools).trace) := by
  rcases hb : streamBody wOk exec s input tools with ⟨wB, thrown⟩
  have hspec := streamBody_spec wOk exec s input tools
  rw [hb] at hspec
  simp only at hspec
  have htrace : ∃ errΔ, (_processStreamingRequest wOk exec s input tools).trace
      = (wB.trace ++ errΔ) ++ [SEvent.close]
      ∧ (∀ e ∈ errΔ, ∃ m', e = SEvent.error m') ∧ (thrown = none → errΔ = []) := by
    cases thrown with
    | none =>
        refine ⟨[], ?_, by simp, fun _ => rfl⟩
        simp [_processStreamingRequest, hb]
    | some m =>
        cases hw' : wOk wB.attempts with
        | true =>
            refine ⟨[SEvent.error m], ?_, by simp, by simp⟩
            simp [_processStreamingRequest, hb, emitW, hw']
        | false =>
            refine ⟨[], ?_, by simp, fun _ => rfl⟩
            simp [_processStreamingRequest, hb, emitW, hw']
  obtain ⟨errΔ, htr, herrΔ, hnoerr⟩ := htrace
  have hcnt_err : List.count SEvent.completed errΔ = 0 :=
    count_eq_zero_of_ne fun e he => by
      obtain ⟨m', rfl⟩ := herrΔ e he
      simp
  have hclose_body : List.count SEvent.close wB.trace = 0 :=
    count_eq_zero_of_ne fun e he => (hspec.2 e he).1
  have hclose_err : List.count SEvent.close errΔ = 0 :=
    count_eq_zero_of_ne fun e he => by
      obtain ⟨m', rfl⟩ := herrΔ e he
      simp
  refine ⟨?_, ?_, ?_, ?_⟩
  · intro m hmem hcompl
    rw [htr] at hmem hcompl
    have hthr : thrown ≠ none := by
      intro h
      rw [hnoerr h] at hmem
      simp only [List.append_nil, List.mem_append, List.mem_singleton] at hmem
      rcases hmem with hmem | hmem
      · exact (hspec.2 _ hmem).2 m rfl
      · cases hmem
    have hcnt0 : List.count SEvent.completed wB.trace = 0 := by
      rw [hspec.1]
      cases hth : thrown with
      | none => exact absurd hth hthr
      | some m' => simp
    rcases List.mem_append.mp hcompl with hc | hc
    · rcases List.mem_append.mp hc with hc | hc
      · exact (List.count_eq_zero.mp hcnt0) hc
      · obtain ⟨m', hm'⟩ := herrΔ _ hc
        cases hm'
    · simp at hc
  · rw [htr, List.count_append, List.count_append, hcnt_err, hspec.1]
    have h0 : List.count SEvent.completed [SEvent.close] = 0 := rfl
    rw [h0]
    cases thrown <;> simp
  · rw [htr, List.count_append, List.count_append, hclose_body, hclose_err]
    rfl
  · intro hwAll hxAll
    have h0 := streamBody_ok wOk exec s input tools hwAll hxAll
    rw [hb] at h0
    simp only at h0
    subst h0
    rw [hnoerr rfl] at htr
    constructor
    · rw [htr, List.count_append, List.count_append, hspec.1]
      simp
    · intro m hmem
      rw [htr] at hmem
      simp only [List.append_nil, List.mem_append, List.mem_singleton] at hmem
      rcases hmem with hmem | hmem
      · exact (hspec.2 _ hmem).2 m rfl
      · cases hmem

/-- Witness for C7: the all-accepting, never-failing concrete run closes
the channel once and completes exactly once. -/
theorem stream_terminal_events_witness :
    List.count SEvent.close
        (_processStreamingRequest (fun _ => true) execAllOk () (.str "hello") []).trace = 1
    ∧ List.count SEvent.completed
        (_processStreamingRequest (fun _ => true) execAllOk () (.str "hello") []).trace = 1 :=
  ⟨(stream_terminal_events (fun _ => true) execAllOk () (.str "hello") []).2.2.1,
   ((stream_terminal_events (fun _ => true) execAllOk () (.str "hello") []).2.2.2
      (fun _ => rfl) (fun _ _ _ => rfl)).1⟩

end SportsProxy
